import Mathlib

/-!
Verification of the fakessh repository's natural-language specification
against a shallow embedding of its Rust sources.

Bytes are modelled as `Nat` (each intended to be `< 256`); byte buffers as
`List Nat`.  Machine-integer casts (`as u32`, `as u8`) are modelled with
explicit `% 2 ^ 32` / `% 2 ^ 8` where the source performs them, and
`checked_add` / `checked_sub` with explicit bound tests.  Fallible Rust code
returning `Result` is embedded as `Except`; a Rust panic (a failed `assert!`,
`unwrap`, `expect` or `todo!`) is embedded as a distinguished error
constructor, since a panic aborts the connection task just like a fatal
error but does not go through the `Result` channel.

Cryptographic hash functions (SHA-256) are not re-implemented; definitions
that hash are parametrised by an abstract `sha : List Nat → List Nat`, and
theorems that need it assume only that its output is 32 bytes long.  An
incremental `hash.update a; hash.update b` sequence in the source is
modelled as `sha (a ++ b)`, the defining property of incremental hashing.
-/

namespace Fakessh

/-- Big-endian 4-byte encoding of a `u32`, as produced by `u32::to_be_bytes`.
Taking each byte `% 256` makes this agree with a Rust `as u32` truncating
cast composed with `to_be_bytes`. -/
def u32be (n : Nat) : List Nat :=
  [n / 2 ^ 24 % 256, n / 2 ^ 16 % 256, n / 2 ^ 8 % 256, n % 256]

/-- Value of a 4-byte big-endian length word, as in `u32::from_be_bytes`.
Inputs other than 4-byte lists do not occur at call sites. -/
def u32beVal (bytes : List Nat) : Nat :=
  match bytes with
  | [a, b, c, d] => a * 2 ^ 24 + b * 2 ^ 16 + c * 2 ^ 8 + d
  | _ => 0

/-- Rust's `usize::next_multiple_of`: the smallest multiple of `m` that is
`≥ n` (for `m > 0`).  The Rust implementation branches on `n % m`. -/
def nextMultipleOf (n m : Nat) : Nat :=
  if n % m = 0 then n else n + (m - n % m)

theorem nextMultipleOf_le (n m : Nat) : n ≤ nextMultipleOf n m := by
  unfold nextMultipleOf
  split <;> omega

theorem nextMultipleOf_mod_eight (n : Nat) : nextMultipleOf n 8 % 8 = 0 := by
  unfold nextMultipleOf
  split <;> omega

theorem nextMultipleOf_mod_32 (n : Nat) : nextMultipleOf n 32 % 32 = 0 := by
  unfold nextMultipleOf
  split <;> omega

theorem nextMultipleOf_sub_lt_eight (n : Nat) : nextMultipleOf n 8 - n < 8 := by
  unfold nextMultipleOf
  split <;> omega

/-! ## Algorithm negotiation (`cluelessh-transport/src/crypto.rs`,
`AlgorithmNegotiation::find`)

An `AlgorithmNegotiation<T>` holds a preference list `supported`; `find`
walks the client's list (ours when we are the client, the peer's when we are
the server) and returns the first algorithm whose name also occurs in the
server's list, removing it from `supported` and returning it.  The wire
name-list (a comma-separated string) is modelled as the `List String` of
its entries; an algorithm value is identified with its name. -/

/-- Embedding of `AlgorithmNegotiation::find`.  `none` models the
`peer does not support any matching algorithm` error. -/
def findAlg (thisIsClient : Bool) (supported : List String)
    (peerAlgs : List String) : Option String :=
  let myAlgs := supported
  let clientAlgs := if thisIsClient then myAlgs else peerAlgs
  let serverAlgs := if thisIsClient then peerAlgs else myAlgs
  -- `for alg_name in client_algs { if server_algs.iter().any(..) {
  --    if let Some(alg) = self.supported.iter().position(..) { return .. } } }`
  clientAlgs.find? fun algName =>
    serverAlgs.any (fun peer => peer == algName)
      && supported.any (fun alg => alg == algName)

theorem find?_congr_on (l : List String) (p q : String → Bool)
    (h : ∀ a ∈ l, p a = q a) : l.find? p = l.find? q := by
  induction l with
  | nil => rfl
  | cons x xs ih =>
    simp only [List.find?]
    rw [h x (by simp)]
    cases q x
    · exact ih fun a ha => h a (by simp [ha])
    · rfl

theorem any_beq_eq_decide_mem (l : List String) (a : String) :
    (l.any fun x => x == a) = decide (a ∈ l) := by
  induction l with
  | nil => rfl
  | cons x xs ih =>
    rw [List.any_cons, ih, Bool.eq_iff_iff]
    simp only [Bool.or_eq_true, beq_iff_eq, decide_eq_true_eq, List.mem_cons]
    exact or_congr eq_comm Iff.rfl

/-! ## Packet framing (`ssh-transport/src/packet.rs`, `Packet`)

`Packet::to_bytes` frames a payload as
`u32 packet_length | u8 padding_length | payload | padding`; `from_raw`
decodes the bytes after the length word back into the payload. -/

namespace Packet

/-- Padding length chosen by `Packet::to_bytes`: the deficit to the next
multiple of eight, plus eight (so that there are at least four bytes of
padding).  Fits in a `u8` (it is at most 15). -/
def padding_len (payload : List Nat) : Nat :=
  let min_full_length := payload.length + 4 + 1
  let min_padding_len := nextMultipleOf min_full_length 8 - min_full_length
  min_padding_len + 8

/-- Embedding of `Packet::to_bytes`. -/
def to_bytes (payload : List Nat) : List Nat :=
  let padding_len := padding_len payload
  let packet_len := payload.length + padding_len + 1
  u32be packet_len ++ [padding_len] ++ payload ++ List.replicate padding_len 0

/-- Embedding of `Packet::from_raw`, applied to the bytes after the length
word.  Errors carry the source's message text. -/
def from_raw : List Nat → Except String (List Nat)
  | [] => .error "empty packet"
  | padding_length :: rest =>
    -- `(bytes.len() - 1).checked_sub(padding_length)`
    if rest.length < padding_length then
      .error "packet padding longer than packet"
    else
      let payload_len := rest.length - padding_length
      let payload := rest.take payload_len
      if ((padding_length :: rest).length + 4) % 8 ≠ 0 then
        .error "full packet length must be multiple of 8"
      else
        .ok payload

end Packet

/-- C1: `AlgorithmNegotiation::find`, in either role, returns the first
entry of the client's preference list that occurs anywhere in the server's
list, and reports an error (here `none`) exactly when no entry of the
client's list occurs in the server's list. -/
theorem algorithm_negotiation_first_client_match
    (thisIsClient : Bool) (supported peerAlgs : List String) :
    findAlg thisIsClient supported peerAlgs
        = (if thisIsClient then supported else peerAlgs).find?
            (fun c => decide (c ∈ (if thisIsClient then peerAlgs else supported)))
      ∧ (findAlg thisIsClient supported peerAlgs = none
          ↔ ∀ c ∈ (if thisIsClient then supported else peerAlgs),
              c ∉ (if thisIsClient then peerAlgs else supported)) := by
  cases thisIsClient with
  | true =>
    have hmain : findAlg true supported peerAlgs
        = supported.find? (fun c => decide (c ∈ peerAlgs)) := by
      unfold findAlg
      refine find?_congr_on _ _ _ fun a ha => ?_
      show ((peerAlgs.any fun peer => peer == a)
          && (supported.any fun alg => alg == a)) = decide (a ∈ peerAlgs)
      rw [any_beq_eq_decide_mem, any_beq_eq_decide_mem,
        decide_eq_true (show a ∈ supported from ha), Bool.and_true]
    exact ⟨hmain, by rw [hmain, List.find?_eq_none]; simp⟩
  | false =>
    have hmain : findAlg false supported peerAlgs
        = peerAlgs.find? (fun c => decide (c ∈ supported)) := by
      unfold findAlg
      refine find?_congr_on _ _ _ fun a _ => ?_
      show ((supported.any fun peer => peer == a)
          && (supported.any fun alg => alg == a)) = decide (a ∈ supported)
      rw [any_beq_eq_decide_mem, Bool.and_self]
    exact ⟨hmain, by rw [hmain, List.find?_eq_none]; simp⟩

/-- C2: framing round-trip.  For every payload `p` with `|p| ≤ 32768`,
decoding the bytes after the length word of `Packet::to_bytes p` restores
`p`, the framed length (including the four length bytes) is a multiple of
eight, and the padding length lies in `[4, 255]`. -/
theorem packet_roundtrip (payload : List Nat) (hlen : payload.length ≤ 32768) :
    Packet.from_raw ((Packet.to_bytes payload).drop 4) = .ok payload
      ∧ (Packet.to_bytes payload).length % 8 = 0
      ∧ 4 ≤ Packet.padding_len payload ∧ Packet.padding_len payload ≤ 255 := by
  have hnm := nextMultipleOf_le (payload.length + 4 + 1) 8
  have hmod := nextMultipleOf_mod_eight (payload.length + 4 + 1)
  have hsub := nextMultipleOf_sub_lt_eight (payload.length + 4 + 1)
  have hpadeq : Packet.padding_len payload
      = nextMultipleOf (payload.length + 4 + 1) 8 - (payload.length + 4 + 1) + 8 := rfl
  have hdrop : (Packet.to_bytes payload).drop 4
      = Packet.padding_len payload
        :: (payload ++ List.replicate (Packet.padding_len payload) 0) := by
    unfold Packet.to_bytes u32be
    simp [List.drop_append_of_le_length]
  refine ⟨?_, ?_, by omega, by omega⟩
  · rw [hdrop]
    simp only [Packet.from_raw, List.length_append, List.length_replicate,
      List.length_cons]
    rw [if_neg (by omega), if_neg (by omega), Nat.add_sub_cancel,
      List.take_left]
  · unfold Packet.to_bytes
    simp only [List.length_append, List.length_replicate, List.length_cons,
      List.length_nil, u32be]
    omega

/-- C2 witness: the round-trip theorem applied at the concrete payload
`[20, 1, 2]`. -/
theorem packet_roundtrip_witness :
    ([20, 1, 2] : List Nat).length ≤ 32768
      ∧ (Packet.from_raw ((Packet.to_bytes [20, 1, 2]).drop 4) = .ok [20, 1, 2]
        ∧ (Packet.to_bytes [20, 1, 2]).length % 8 = 0
        ∧ 4 ≤ Packet.padding_len [20, 1, 2] ∧ Packet.padding_len [20, 1, 2] ≤ 255) :=
  ⟨by decide, packet_roundtrip [20, 1, 2] (by decide)⟩

/-! ## Key derivation (`cluelessh-transport/src/crypto.rs`, `derive_key` and
`encode_mpint_for_hash`) -/

/-- Embedding of `encode_mpint_for_hash`.  Modelled from the spec in one
respect: the helper `cluelessh_format::fixup_mpint` that it calls is not
among the sources; per the spec, `K` is encoded as a signed mpint with a
leading zero byte added when the top bit of the first byte is set, which is
what this definition does. -/
def encode_mpint_for_hash (key : List Nat) : List Nat :=
  let pad_zero : Bool :=
    match key with
    | [] => false
    | b :: _ => decide (128 ≤ b)
  u32be (key.length + (if pad_zero then 1 else 0))
    ++ (if pad_zero then [0] else []) ++ key

/-- Body of the `for i in 0..(padded_key_size / sha2len)` loop of
`derive_key`: hash `K_mpint || H || (letter || session_id, or the output
written so far)` and write the digest into `output[(i*32)..][..32]`. -/
def derive_key_step (sha : List Nat → List Nat) (k h letter session_id : List Nat)
    (output : List Nat) (i : Nat) : List Nat :=
  let sha2len := 32
  let hashInput := encode_mpint_for_hash k ++ h
    ++ (if i = 0 then letter ++ session_id else output.take (i * sha2len))
  output.take (i * sha2len) ++ sha hashInput ++ output.drop (i * sha2len + sha2len)

/-- Embedding of `derive_key`: a zero buffer of the key size rounded up to a
multiple of the SHA-256 output size is filled block by block and then
truncated to `key_size`. -/
def derive_key (sha : List Nat → List Nat) (k h letter session_id : List Nat)
    (key_size : Nat) : List Nat :=
  let sha2len := 32
  let padded_key_size := nextMultipleOf key_size sha2len
  let output := (List.range (padded_key_size / sha2len)).foldl
    (derive_key_step sha k h letter session_id)
    (List.replicate padded_key_size 0)
  output.take key_size

/-- Reference definition from the claim: concatenation of the first `n`
blocks, where block 0 is `SHA-256(mpint(K) || H || letter || session_id)`
and block `i > 0` is `SHA-256(mpint(K) || H || blocks 0..i)`. -/
def derive_key_blocks (sha : List Nat → List Nat) (k h letter session_id : List Nat) :
    Nat → List Nat
  | 0 => []
  | i + 1 =>
    let acc := derive_key_blocks sha k h letter session_id i
    acc ++ sha (encode_mpint_for_hash k ++ h
      ++ (if i = 0 then letter ++ session_id else acc))

/-- Reference definition from the claim: the first `key_size` bytes of the
iterated-SHA-256 block stream (enough blocks to cover `key_size` bytes). -/
def derive_key_spec (sha : List Nat → List Nat) (k h letter session_id : List Nat)
    (key_size : Nat) : List Nat :=
  (derive_key_blocks sha k h letter session_id
    (nextMultipleOf key_size 32 / 32)).take key_size

theorem derive_key_blocks_length (sha : List Nat → List Nat)
    (hsha : ∀ x, (sha x).length = 32) (k h letter session_id : List Nat) (i : Nat) :
    (derive_key_blocks sha k h letter session_id i).length = 32 * i := by
  induction i with
  | zero => rfl
  | succ j ih =>
    simp only [derive_key_blocks, List.length_append, ih, hsha]
    omega

theorem derive_key_loop_eq (sha : List Nat → List Nat)
    (hsha : ∀ x, (sha x).length = 32) (k h letter session_id : List Nat)
    (q : Nat) : ∀ j, j ≤ q →
    (List.range j).foldl (derive_key_step sha k h letter session_id)
        (List.replicate (32 * q) 0)
      = derive_key_blocks sha k h letter session_id j
          ++ List.replicate (32 * (q - j)) 0 := by
  intro j
  induction j with
  | zero => simp [derive_key_blocks]
  | succ i ih =>
    intro hle
    rw [List.range_succ, List.foldl_append, ih (by omega)]
    have hblen := derive_key_blocks_length sha hsha k h letter session_id i
    simp only [List.foldl_cons, List.foldl_nil, derive_key_step]
    rw [List.take_left' (by omega)]
    have hdrop : (derive_key_blocks sha k h letter session_id i
          ++ List.replicate (32 * (q - i)) 0).drop (i * 32 + 32)
        = List.replicate (32 * (q - (i + 1))) 0 := by
      have : i * 32 + 32 = (derive_key_blocks sha k h letter session_id i).length + 32 := by
        omega
      rw [this, List.drop_append, List.drop_replicate]
      congr 1
      omega
    rw [hdrop]
    simp only [derive_key_blocks, List.append_assoc]

/-- C3: `derive_key` returns exactly the first `key_size` bytes of the
iterated-SHA-256 reference stream of the claim, for every hash function
whose digests are 32 bytes long. -/
theorem derive_key_matches_reference (sha : List Nat → List Nat)
    (hsha : ∀ x, (sha x).length = 32) (k h letter session_id : List Nat)
    (key_size : Nat) :
    derive_key sha k h letter session_id key_size
      = derive_key_spec sha k h letter session_id key_size := by
  simp only [derive_key, derive_key_spec]
  have hmod := nextMultipleOf_mod_32 key_size
  have hq : nextMultipleOf key_size 32 = 32 * (nextMultipleOf key_size 32 / 32) := by
    omega
  rw [show List.replicate (nextMultipleOf key_size 32) (0 : Nat)
      = List.replicate (32 * (nextMultipleOf key_size 32 / 32)) 0 by rw [← hq]]
  rw [derive_key_loop_eq sha hsha k h letter session_id _ _ (le_refl _)]
  simp

/-- C3 witness: the theorem applied at a concrete 32-byte hash function and
concrete inputs. -/
theorem derive_key_matches_reference_witness :
    (∀ x, ((fun _ : List Nat => List.replicate 32 7) x).length = 32)
      ∧ derive_key (fun _ => List.replicate 32 7) [200, 1] [3, 4] [67] [9, 9] 40
        = derive_key_spec (fun _ => List.replicate 32 7) [200, 1] [3, 4] [67] [9, 9] 40 :=
  ⟨fun _ => by simp,
    derive_key_matches_reference (fun _ => List.replicate 32 7)
      (fun _ => by simp) [200, 1] [3, 4] [67] [9, 9] 40⟩

/-! ## Exchange hash (`cluelessh-transport/src/crypto.rs`,
`key_exchange_hash`) -/

/-- The `hash_string` framing: `u32 length | bytes`. -/
def hash_string_enc (bytes : List Nat) : List Nat :=
  u32be bytes.length ++ bytes

/-- Embedding of `key_exchange_hash`.  The source feeds the pieces to one
incremental SHA-256; that is modelled as hashing their concatenation. -/
def key_exchange_hash (sha : List Nat → List Nat)
    (client_ident server_ident client_kexinit server_kexinit server_hostkey
      eph_client_public_key eph_server_public_key shared_secret : List Nat) :
    List Nat :=
  sha (hash_string_enc (client_ident.take (client_ident.length - 2))
    ++ hash_string_enc (server_ident.take (server_ident.length - 2))
    ++ hash_string_enc client_kexinit
    ++ hash_string_enc server_kexinit
    ++ hash_string_enc server_hostkey
    ++ hash_string_enc eph_client_public_key
    ++ hash_string_enc eph_server_public_key
    ++ encode_mpint_for_hash shared_secret)

/-- Strip one trailing CRLF when present, per the claim's words. -/
def stripCrlf (l : List Nat) : List Nat :=
  if [13, 10].isSuffixOf l then l.take (l.length - 2) else l

/-- Reference definition from the claim: SHA-256 of `V_C || V_S || I_C ||
I_S || K_S || Q_C || Q_S || K`, the ident lines stripped of their trailing
CRLF, all but `K` length-prefixed as strings, `K` as an mpint. -/
def key_exchange_hash_spec (sha : List Nat → List Nat)
    (client_ident server_ident client_kexinit server_kexinit server_hostkey
      eph_client_public_key eph_server_public_key shared_secret : List Nat) :
    List Nat :=
  sha (hash_string_enc (stripCrlf client_ident)
    ++ hash_string_enc (stripCrlf server_ident)
    ++ hash_string_enc client_kexinit
    ++ hash_string_enc server_kexinit
    ++ hash_string_enc server_hostkey
    ++ hash_string_enc eph_client_public_key
    ++ hash_string_enc eph_server_public_key
    ++ encode_mpint_for_hash shared_secret)

theorem take_crlf_eq (v : List Nat) :
    (v ++ [13, 10]).take ((v ++ [13, 10]).length - 2) = v := by
  simp only [List.length_append, List.length_cons, List.length_nil]
  rw [show v.length + (0 + 1 + 1) - 2 = v.length from by omega, List.take_left]

theorem stripCrlf_append_crlf (v : List Nat) : stripCrlf (v ++ [13, 10]) = v := by
  unfold stripCrlf
  rw [if_pos, take_crlf_eq]
  rw [List.isSuffixOf]
  simp [List.isPrefixOf_iff_prefix]

/-- C4: for identification lines that end in CRLF, `key_exchange_hash` is
exactly the hash of the claim's concatenation (idents with the trailing
CRLF stripped, string-framed fields, mpint-framed shared secret, in the
order `V_C, V_S, I_C, I_S, K_S, Q_C, Q_S, K`). -/
theorem key_exchange_hash_matches_reference (sha : List Nat → List Nat)
    (client_ident server_ident client_kexinit server_kexinit server_hostkey
      eph_client_public_key eph_server_public_key shared_secret : List Nat)
    (hc : ∃ v, client_ident = v ++ [13, 10])
    (hs : ∃ v, server_ident = v ++ [13, 10]) :
    key_exchange_hash sha client_ident server_ident client_kexinit
        server_kexinit server_hostkey eph_client_public_key
        eph_server_public_key shared_secret
      = key_exchange_hash_spec sha client_ident server_ident client_kexinit
        server_kexinit server_hostkey eph_client_public_key
        eph_server_public_key shared_secret := by
  obtain ⟨vc, rfl⟩ := hc
  obtain ⟨vs, rfl⟩ := hs
  unfold key_exchange_hash key_exchange_hash_spec
  rw [stripCrlf_append_crlf, stripCrlf_append_crlf, take_crlf_eq, take_crlf_eq]

/-- C4 witness: the theorem applied at concrete idents ending in CRLF. -/
theorem key_exchange_hash_matches_reference_witness :
    (∃ v, ([83, 72, 13, 10] : List Nat) = v ++ [13, 10])
      ∧ (∃ v, ([83, 83, 13, 10] : List Nat) = v ++ [13, 10])
      ∧ key_exchange_hash (fun x => x) [83, 72, 13, 10] [83, 83, 13, 10]
          [20] [20, 1] [1, 2] [3] [4] [200]
        = key_exchange_hash_spec (fun x => x) [83, 72, 13, 10] [83, 83, 13, 10]
          [20] [20, 1] [1, 2] [3] [4] [200] :=
  ⟨⟨[83, 72], rfl⟩, ⟨[83, 83], rfl⟩,
    key_exchange_hash_matches_reference (fun x => x) _ _ _ _ _ _ _ _
      ⟨[83, 72], rfl⟩ ⟨[83, 83], rfl⟩⟩

/-! ## Session key material (`cluelessh-transport/src/crypto.rs`,
`Session::from_keys`, `Session::new`, `Session::rekey`)

`EncryptionAlgorithm`'s cipher function pointers are code, not data; only
the fields `from_keys` reads (`key_size`, `iv_size`) and the name are
modelled. -/

structure EncryptionAlg where
  name : String
  iv_size : Nat
  key_size : Nat
deriving DecidableEq

structure Tunnel where
  /-- `key || IV` -/
  state : List Nat
  algorithm : EncryptionAlg
deriving DecidableEq

structure Session where
  session_id : List Nat
  from_peer : Tunnel
  to_peer : Tunnel
deriving DecidableEq

/-- Embedding of `Session::from_keys`: derive per-direction key material
(`"C"`/`"A"` for client-to-server, `"D"`/`"B"` for server-to-client) from
`h` and `k`, with the `session_id` argument stored unchanged. -/
def Session.from_keys (sha : List Nat → List Nat) (session_id h k : List Nat)
    (alg_c2s alg_s2c : EncryptionAlg) (is_server : Bool) : Session :=
  let c2s : Tunnel :=
    { algorithm := alg_c2s
      state := derive_key sha k h [67] session_id alg_c2s.key_size
        ++ derive_key sha k h [65] session_id alg_c2s.iv_size }
  let s2c : Tunnel :=
    { algorithm := alg_s2c
      state := derive_key sha k h [68] session_id alg_s2c.key_size
        ++ derive_key sha k h [66] session_id alg_s2c.iv_size }
  if is_server then
    { session_id := session_id, from_peer := c2s, to_peer := s2c }
  else
    { session_id := session_id, from_peer := s2c, to_peer := c2s }

/-- Embedding of `Session::new`: the first exchange hash doubles as the
session id. -/
def Session.new (sha : List Nat → List Nat) (h k : List Nat)
    (alg_c2s alg_s2c : EncryptionAlg) (is_server : Bool) : Session :=
  Session.from_keys sha h h k alg_c2s alg_s2c is_server

/-- Embedding of `Session::rekey`: `*self = Self::from_keys(self.session_id,
h, k, ..)`. -/
def Session.rekey (sha : List Nat → List Nat) (s : Session) (h k : List Nat)
    (alg_c2s alg_s2c : EncryptionAlg) (is_server : Bool) : Session :=
  Session.from_keys sha s.session_id h k alg_c2s alg_s2c is_server

/-- Arguments of one rekey invocation. -/
structure RekeyStep where
  h : List Nat
  k : List Nat
  alg_c2s : EncryptionAlg
  alg_s2c : EncryptionAlg
  is_server : Bool

/-- C5: every rekey replaces the per-direction key material with material
freshly derived (by `from_keys`) from the new exchange hash and shared
secret, but leaves `session_id` untouched; over any sequence of rekeys the
session id stays what it was when the `Session` was created — the first
exchange hash. -/
theorem session_rekey_keeps_session_id (sha : List Nat → List Nat)
    (s : Session) (steps : List RekeyStep) :
    (steps.foldl
        (fun cur st => Session.rekey sha cur st.h st.k st.alg_c2s st.alg_s2c st.is_server)
        s).session_id = s.session_id
      ∧ (∀ st : RekeyStep,
          Session.rekey sha s st.h st.k st.alg_c2s st.alg_s2c st.is_server
            = Session.from_keys sha s.session_id st.h st.k st.alg_c2s st.alg_s2c st.is_server)
      ∧ (∀ h k alg_c2s alg_s2c is_server,
          (Session.new sha h k alg_c2s alg_s2c is_server).session_id = h) := by
  refine ⟨?_, fun st => rfl, fun h k a b srv => ?_⟩
  · induction steps generalizing s with
    | nil => rfl
    | cons st rest ih =>
      rw [List.foldl_cons, ih]
      unfold Session.rekey Session.from_keys
      cases st.is_server <;> simp
  · unfold Session.new Session.from_keys
    cases srv <;> simp

/-! ## Channel multiplexer (`cluelessh-connection/src/lib.rs`,
`ChannelsState`)

`HashMap`s are modelled as association lists: `channels` keyed by our
channel number, `queued_data_extended` keyed by the extended-data code.
The spec leaves the extended-queue iteration order unspecified; the
association list fixes one order (insertion order).  `VecDeque` push_back
queues are lists extended on the right.

A Rust panic (failed `assert!`, `unwrap`, `expect`, `todo!`) aborts the
connection task without going through `Result`; it is modelled as an
`Except.error` with a dedicated `panic…` constructor, kept distinct from
the `peer_error!` constructors. -/

/-- Outbound packets pushed onto `packets_to_send`, named after the
`Packet::new_msg_…` constructor that builds them.  Channel-request payloads
(`pty-req`/`shell`/`exit-status` details) are irrelevant to the claims and
abstracted into `channelRequest`. -/
inductive OutPacket
  | channelOpenConfirmation (recipient sender initial_window max_packet : Nat)
  | channelWindowAdjust (recipient delta : Nat)
  | channelData (recipient : Nat) (data : List Nat)
  | channelExtendedData (recipient code : Nat) (data : List Nat)
  | channelEof (recipient : Nat)
  | channelClose (recipient : Nat)
  | channelSuccess (recipient : Nat)
  | channelFailure (recipient : Nat)
  | requestFailure
  | channelRequest (recipient : Nat)
deriving DecidableEq

inductive ChannelKind
  | session
deriving DecidableEq

inductive ChannelUpdateKind
  | success
  | failure
  | opened (kind : ChannelKind)
  | openFailed (code : Nat)
  | request
  | data (data : List Nat)
  | extendedData (code : Nat) (data : List Nat)
  | eof
  | closed
deriving DecidableEq

/-- The `Channel` struct of an open channel. -/
structure Channel where
  we_closed : Bool
  peer_channel : Nat
  peer_window_size : Nat
  peer_max_packet_size : Nat
  our_window_size : Nat
  our_max_packet_size : Nat
  our_window_size_increase_step : Nat
  queued_data_default : List Nat
  queued_data_extended : List (Nat × List Nat)
deriving DecidableEq

inductive ChannelState
  | awaitingConfirmation (our_window_size our_max_packet_size : Nat)
      (update_message : ChannelKind)
  | opened (c : Channel)
deriving DecidableEq

structure ChannelsState where
  packets_to_send : List OutPacket
  channel_updates : List (Nat × ChannelUpdateKind)
  channels : List (Nat × ChannelState)
  next_channel_id : Nat
  is_server : Bool
deriving DecidableEq

/-- Association-list lookup (the model of `HashMap::get`). -/
def alookup {α : Type} : List (Nat × α) → Nat → Option α
  | [], _ => none
  | (k, v) :: rest, n => if k = n then some v else alookup rest n

/-- Association-list pointwise update (the model of mutating through a
`HashMap::get_mut` borrow). -/
def aset {α : Type} (l : List (Nat × α)) (n : Nat) (v : α) : List (Nat × α) :=
  l.map fun p => if p.1 = n then (p.1, v) else p

/-- Association-list removal (the model of `HashMap::remove`). -/
def aremove {α : Type} (l : List (Nat × α)) (n : Nat) : List (Nat × α) :=
  l.filter fun p => decide (p.1 ≠ n)

theorem alookup_aset_self {α : Type} (l : List (Nat × α)) (n : Nat) (v : α)
    (hsome : (alookup l n).isSome) : alookup (aset l n v) n = some v := by
  induction l with
  | nil => simp [alookup] at hsome
  | cons p rest ih =>
    obtain ⟨k, w⟩ := p
    simp only [aset, List.map_cons]
    by_cases hk : k = n
    · subst hk
      rw [if_pos rfl]
      simp [alookup]
    · rw [if_neg hk]
      simp only [alookup, if_neg hk] at hsome ⊢
      exact ih hsome

theorem alookup_aremove_self {α : Type} (l : List (Nat × α)) (n : Nat) :
    alookup (aremove l n) n = none := by
  induction l with
  | nil => rfl
  | cons p rest ih =>
    obtain ⟨k, w⟩ := p
    by_cases hk : k = n
    · subst hk
      simpa [aremove, List.filter] using ih
    · simpa [aremove, List.filter, hk, alookup] using ih

/-- Connection-fatal outcomes: the `peer_error!` kinds relevant to the
claims, plus the panic kinds (see the section comment). -/
inductive ConnErr
  | unknownChannel
  | channelNotOpen
  | windowOverflow
  | windowUnderflow
  | packetTooLarge
  | panicEmptyData
  | panicChunkSizeZero
  | panicMissingChannel
  | panicTodoRequest
deriving DecidableEq

/-- Embedding of `fn channel`: look a channel up, failing on unknown or
not-fully-opened channels. -/
def ChannelsState.channel (s : ChannelsState) (number : Nat) :
    Except ConnErr Channel :=
  match alookup s.channels number with
  | none => .error .unknownChannel
  | some (.awaitingConfirmation _ _ _) => .error .channelNotOpen
  | some (.opened c) => .ok c

/-- Write back a mutation of an open channel (Rust mutates through the
`&mut Channel` borrow). -/
def ChannelsState.setChannel (s : ChannelsState) (number : Nat) (c : Channel) :
    ChannelsState :=
  { s with channels := aset s.channels number (.opened c) }

/-- `self.packets_to_send.push_back(packet)`. -/
def ChannelsState.pushPacket (s : ChannelsState) (p : OutPacket) : ChannelsState :=
  { s with packets_to_send := s.packets_to_send ++ [p] }

/-- `self.channel_updates.push_back(ChannelUpdate { number, kind })`. -/
def ChannelsState.pushUpdate (s : ChannelsState) (number : Nat)
    (k : ChannelUpdateKind) : ChannelsState :=
  { s with channel_updates := s.channel_updates ++ [(number, k)] }

/-- `data.chunks(maxp)` as a list of chunks.  The `fuel` argument (the data
length at the call site, which bounds the number of chunks whenever
`maxp > 0`) makes the recursion structural. -/
def chunkify (maxp : Nat) : Nat → List Nat → List (List Nat)
  | _, [] => []
  | 0, _ :: _ => []
  | fuel + 1, d => d.take maxp :: chunkify maxp fuel (d.drop maxp)

/-- Embedding of `fn send_data_packet`: push one `CHANNEL_DATA` or
`CHANNEL_EXTENDED_DATA` packet.  Its assertions (data non-empty and within
the peer max packet size) are established by both callers. -/
def ChannelsState.send_data_packet (s : ChannelsState) (peer : Nat)
    (data : List Nat) (extended_code : Option Nat) : ChannelsState :=
  match extended_code with
  | some code => s.pushPacket (.channelExtendedData peer code data)
  | none => s.pushPacket (.channelData peer data)

/-- Queue bytes that exceeded the window: the default queue, or the
extended queue of the given code (`entry(code).or_default()` inserts an
empty queue for a new code). -/
def Channel.queueBytes (c : Channel) (bytes : List Nat)
    (extended_code : Option Nat) : Channel :=
  match extended_code with
  | none => { c with queued_data_default := c.queued_data_default ++ bytes }
  | some code =>
    { c with queued_data_extended :=
        match alookup c.queued_data_extended code with
        | some q => aset c.queued_data_extended code (q ++ bytes)
        | none => c.queued_data_extended ++ [(code, bytes)] }

/-- The `while let Some(data) = chunks.next()` loop of `fn send_data`: for
each chunk, either the whole chunk fits in the peer window (decrement and
send), or a prefix is sent, the window drops to zero, and the rest of the
data is queued. -/
def ChannelsState.sendDataChunks (channel_number : Nat)
    (extended_code : Option Nat) :
    ChannelsState → List (List Nat) → Except ConnErr ChannelsState
  | s, [] => .ok s
  | s, chunk :: rest =>
    match s.channel channel_number with
    | .error _ => .error .panicMissingChannel
    | .ok c =>
      if c.peer_window_size < chunk.length then
        -- `checked_sub` returned `None`: exhaust the window and queue the rest
        let to_send := chunk.take c.peer_window_size
        let to_keep := chunk.drop c.peer_window_size
        let s1 :=
          if to_send.isEmpty then s
          else
            (s.setChannel channel_number
              { c with peer_window_size := 0 }).send_data_packet
              c.peer_channel to_send extended_code
        match s1.channel channel_number with
        | .error _ => .error .panicMissingChannel
        | .ok c1 =>
          .ok (s1.setChannel channel_number
            (c1.queueBytes (to_keep ++ rest.flatten) extended_code))
      else
        let s1 :=
          (s.setChannel channel_number
            { c with peer_window_size := c.peer_window_size - chunk.length
            }).send_data_packet c.peer_channel chunk extended_code
        ChannelsState.sendDataChunks channel_number extended_code s1 rest

/-- Embedding of `fn send_data`.  `assert!(!data.is_empty())` panics on
empty input; `data.chunks(0)` panics when the peer max packet size is
zero. -/
def ChannelsState.send_data (s : ChannelsState) (channel_number : Nat)
    (data : List Nat) (extended_code : Option Nat) :
    Except ConnErr ChannelsState :=
  if data.isEmpty then .error .panicEmptyData
  else
    match s.channel channel_number with
    | .error _ => .error .panicMissingChannel
    | .ok c =>
      if c.peer_max_packet_size = 0 then .error .panicChunkSizeZero
      else
        ChannelsState.sendDataChunks channel_number extended_code s
          (chunkify c.peer_max_packet_size data.length data)

/-- The `for number in data_keys` loop draining the extended queues after a
window grant. -/
def ChannelsState.drainExtendedKeys (our_channel : Nat) :
    ChannelsState → List Nat → Except ConnErr ChannelsState
  | s, [] => .ok s
  | s, number :: rest =>
    match s.channel our_channel with
    | .error e => .error e
    | .ok c =>
      match alookup c.queued_data_extended number with
      | none => .error .panicMissingChannel
      | some q =>
        if q.isEmpty then
          ChannelsState.drainExtendedKeys our_channel s rest
        else
          let limit := min q.length c.peer_window_size
          let data_to_send := q.take limit
          let s1 := s.setChannel our_channel
            { c with queued_data_extended :=
                (aset c.queued_data_extended number (q.drop limit)) }
          if data_to_send.isEmpty then
            ChannelsState.drainExtendedKeys our_channel s1 rest
          else
            match s1.send_data our_channel data_to_send (some number) with
            | .error e => .error e
            | .ok s2 => ChannelsState.drainExtendedKeys our_channel s2 rest

/-- Embedding of the `SSH_MSG_CHANNEL_WINDOW_ADJUST` arm of
`ChannelsState::recv_packet`: validate the channel, grow the peer window
(failing on 32-bit overflow), then drain the default queue and every
extended queue. -/
def ChannelsState.recvWindowAdjust (s : ChannelsState)
    (our_channel bytes_to_add : Nat) : Except ConnErr ChannelsState :=
  if (alookup s.channels our_channel).isNone then .error .unknownChannel
  else
    match s.channel our_channel with
    | .error e => .error e
    | .ok c =>
      if 2 ^ 32 ≤ c.peer_window_size + bytes_to_add then .error .windowOverflow
      else
        let s1 := s.setChannel our_channel
          { c with peer_window_size := c.peer_window_size + bytes_to_add }
        match s1.channel our_channel with
        | .error e => .error e
        | .ok c1 =>
          let afterDefault :=
            if c1.queued_data_default.isEmpty then .ok s1
            else
              let limit := min c1.queued_data_default.length c1.peer_window_size
              let data_to_send := c1.queued_data_default.take limit
              let s2 := s1.setChannel our_channel
                { c1 with queued_data_default := c1.queued_data_default.drop limit }
              s2.send_data our_channel data_to_send none
          match afterDefault with
          | .error e => .error e
          | .ok s3 =>
            match s3.channel our_channel with
            | .error e => .error e
            | .ok c3 =>
              ChannelsState.drainExtendedKeys our_channel s3
                (c3.queued_data_extended.map Prod.fst)

/-- Embedding of the `SSH_MSG_CHANNEL_DATA` arm of
`ChannelsState::recv_packet`. -/
def ChannelsState.recvChannelData (s : ChannelsState) (our_channel : Nat)
    (data : List Nat) : Except ConnErr ChannelsState :=
  if (alookup s.channels our_channel).isNone then .error .unknownChannel
  else
    match s.channel our_channel with
    | .error e => .error e
    | .ok c =>
      -- `checked_sub(data.len() as u32)`
      let len := data.length % 2 ^ 32
      if c.our_window_size < len then .error .windowUnderflow
      else
        let c2 := { c with our_window_size := c.our_window_size - len }
        if c2.our_max_packet_size < len then .error .packetTooLarge
        else
          -- refill when the window drops below the hardcoded threshold
          let c3 :=
            if c2.our_window_size < 1000 then
              { c2 with our_window_size :=
                  (c2.our_window_size + c2.our_window_size_increase_step) % 2 ^ 32 }
            else c2
          let s3 :=
            if c2.our_window_size < 1000 then
              s.pushPacket (.channelWindowAdjust c2.peer_channel
                c2.our_window_size_increase_step)
            else s
          .ok ((s3.setChannel our_channel c3).pushUpdate our_channel
            (.data data))

/-- Embedding of the `SSH_MSG_CHANNEL_CLOSE` arm of
`ChannelsState::recv_packet`: echo `CHANNEL_CLOSE` unless we already sent
one, remove the channel, and emit a `Closed` update. -/
def ChannelsState.recvChannelClose (s : ChannelsState) (our_channel : Nat) :
    Except ConnErr ChannelsState :=
  if (alookup s.channels our_channel).isNone then .error .unknownChannel
  else
    match s.channel our_channel with
    | .error e => .error e
    | .ok c =>
      let s1 := if c.we_closed then s
        else s.pushPacket (.channelClose c.peer_channel)
      let s2 := { s1 with channels := aremove s1.channels our_channel }
      .ok (s2.pushUpdate our_channel .closed)

/-- Channel-request operations, payloads elided (they only select which
packet constructor runs; `exec`/`subsystem`/`env` are `todo!()` in the
source). -/
inductive ChannelRequest
  | ptyReq
  | shell
  | exec
  | subsystem
  | env
  | exitStatus
deriving DecidableEq

inductive ChannelOperationKind
  | success
  | failure
  | data (data : List Nat)
  | extendedData (code : Nat) (data : List Nat)
  | request (req : ChannelRequest)
  | eof
  | close
deriving DecidableEq

/-- Embedding of `ChannelsState::do_operation`: operations on unknown,
not-fully-open, or already-closed channels are dropped without effect;
otherwise the corresponding packet is produced (a `Close` additionally
marks `we_closed`). -/
def ChannelsState.do_operation (s : ChannelsState) (number : Nat)
    (kind : ChannelOperationKind) : Except ConnErr ChannelsState :=
  match s.channel number with
  | .error _ => .ok s
  | .ok c =>
    if c.we_closed then .ok s
    else
      match kind with
      | .success => .ok (s.pushPacket (.channelSuccess c.peer_channel))
      | .failure => .ok (s.pushPacket (.channelFailure c.peer_channel))
      | .data d => s.send_data number d none
      | .extendedData code d => s.send_data number d (some code)
      | .request req =>
        match req with
        | .ptyReq | .shell | .exitStatus =>
          .ok (s.pushPacket (.channelRequest c.peer_channel))
        | .exec | .subsystem | .env => .error .panicTodoRequest
      | .eof => .ok (s.pushPacket (.channelEof c.peer_channel))
      | .close =>
        .ok ((s.pushPacket (.channelClose c.peer_channel)).setChannel number
          { c with we_closed := true })

/-! ## Legacy channel state (`ssh-connection/src/lib.rs`,
`ServerChannelsState`)

The older generation of the connection crate.  Its `Channel` has no
windowing and its `do_operation` never consults `we_closed`. -/

structure LegacyChannel where
  we_closed : Bool
  peer_channel : Nat
deriving DecidableEq

/-- Legacy state; `channel_updates` and `next_channel_id` are omitted as
`do_operation` never touches them. -/
structure ServerChannelsState where
  packets_to_send : List OutPacket
  channels : List (Nat × LegacyChannel)
deriving DecidableEq

inductive LegacyOperationKind
  | success
  | failure
  | data (data : List Nat)
  | close
deriving DecidableEq

/-- Embedding of `ServerChannelsState::do_operation`.  The source starts
with `self.channel(op.number).expect("passed channel ID that does not
exist")`, so a missing channel panics, and nothing checks `we_closed`. -/
def ServerChannelsState.do_operation (s : ServerChannelsState) (number : Nat)
    (kind : LegacyOperationKind) : Except ConnErr ServerChannelsState :=
  match alookup s.channels number with
  | none => .error .panicMissingChannel
  | some c =>
    match kind with
    | .success =>
      .ok { s with packets_to_send :=
        s.packets_to_send ++ [.channelSuccess c.peer_channel] }
    | .failure =>
      .ok { s with packets_to_send :=
        s.packets_to_send ++ [.channelFailure c.peer_channel] }
    | .data d =>
      .ok { s with packets_to_send :=
        s.packets_to_send ++ [.channelData c.peer_channel d] }
    | .close =>
      .ok { packets_to_send := s.packets_to_send ++ [.channelClose c.peer_channel]
            channels := aset s.channels number { c with we_closed := true } }

/-- Channel used in the C6 failing input: peer window exhausted (zero — the
only state in which bytes sit in a queue) with bytes queued. -/
def exhaustedChannel : Channel :=
  { we_closed := false, peer_channel := 0, peer_window_size := 0,
    peer_max_packet_size := 50, our_window_size := 2048,
    our_max_packet_size := 50, our_window_size_increase_step := 2048,
    queued_data_default := [1, 2, 3], queued_data_extended := [] }

def exhaustedState : ChannelsState :=
  { packets_to_send := [], channel_updates := [],
    channels := [(0, .opened exhaustedChannel)],
    next_channel_id := 1, is_server := true }

/-- C6: `CHANNEL_WINDOW_ADJUST` with delta 0 on a channel whose peer window
is 0 while its default queue holds bytes makes the drain call `send_data`
with an empty slice, violating `send_data`'s own `assert!(!data.is_empty())`
(a peer-triggerable panic).  The claim prescribes sending
`min(queue length, peer window) = min(3, 0) = 0` bytes, i.e. doing nothing.
Note the extended-queue drain guards this very case with
`if !data_to_send.is_empty()`; the default-queue drain does not. -/
theorem window_adjust_zero_delta_hits_assert :
    ChannelsState.recvWindowAdjust exhaustedState 0 0
      = .error .panicEmptyData := by rfl

/-- C7: the `CHANNEL_DATA` arm validates that the channel exists and is
open, fails the connection when the window decrement would underflow or the
data exceeds our advertised max packet size, and otherwise decrements our
window (topping it up below the refill threshold) and emits a `Data`
update. -/
theorem recv_channel_data_checks (s : ChannelsState) (ch : Nat)
    (data : List Nat) (c : Channel)
    (h : alookup s.channels ch = some (.opened c))
    (hlen : data.length < 2 ^ 32) :
    (c.our_window_size < data.length →
        s.recvChannelData ch data = .error .windowUnderflow)
      ∧ (data.length ≤ c.our_window_size →
          c.our_max_packet_size < data.length →
          s.recvChannelData ch data = .error .packetTooLarge)
      ∧ (data.length ≤ c.our_window_size →
          data.length ≤ c.our_max_packet_size →
          ∃ s', s.recvChannelData ch data = .ok s'
            ∧ s'.channel_updates = s.channel_updates ++ [(ch, .data data)]
            ∧ ∃ c', alookup s'.channels ch = some (.opened c')
                ∧ c'.our_window_size =
                    (if c.our_window_size - data.length < 1000 then
                      (c.our_window_size - data.length
                        + c.our_window_size_increase_step) % 2 ^ 32
                    else c.our_window_size - data.length))
      ∧ (∀ m, alookup s.channels m = none →
          s.recvChannelData m data = .error .unknownChannel)
      ∧ (∀ m a b k, alookup s.channels m = some (.awaitingConfirmation a b k) →
          s.recvChannelData m data = .error .channelNotOpen) := by
  have hlen' : data.length % 2 ^ 32 = data.length := Nat.mod_eq_of_lt hlen
  refine ⟨?_, ?_, ?_, ?_, ?_⟩
  · intro hw
    simp only [ChannelsState.recvChannelData, ChannelsState.channel, h, hlen']
    simp [hw]
  · intro hw hm
    simp only [ChannelsState.recvChannelData, ChannelsState.channel, h, hlen']
    simp [not_lt.mpr hw, hm]
  · intro hw hm
    simp only [ChannelsState.recvChannelData, ChannelsState.channel, h, hlen',
      Option.isNone_some, Bool.false_eq_true, if_false, not_lt.mpr hw,
      not_lt.mpr hm]
    by_cases ht : c.our_window_size - data.length < 1000
    · simp only [ht, if_true]
      refine ⟨_, rfl, ?_, ?_⟩
      · simp [ChannelsState.pushUpdate, ChannelsState.setChannel,
          ChannelsState.pushPacket]
      · refine ⟨{ c with our_window_size :=
            (c.our_window_size - data.length
              + c.our_window_size_increase_step) % 2 ^ 32 }, ?_, ?_⟩
        · simp only [ChannelsState.pushUpdate, ChannelsState.setChannel,
            ChannelsState.pushPacket]
          exact alookup_aset_self _ _ _ (by simp [h])
        · simp [ht]
    · simp only [ht, if_false]
      refine ⟨_, rfl, ?_, ?_⟩
      · simp [ChannelsState.pushUpdate, ChannelsState.setChannel,
          ChannelsState.pushPacket]
      · refine ⟨{ c with our_window_size := c.our_window_size - data.length },
          ?_, ?_⟩
        · simp only [ChannelsState.pushUpdate, ChannelsState.setChannel,
            ChannelsState.pushPacket]
          exact alookup_aset_self _ _ _ (by simp [h])
        · simp [ht]
  · intro m hm
    simp [ChannelsState.recvChannelData, ChannelsState.channel, hm]
  · intro m a b k hm
    simp [ChannelsState.recvChannelData, ChannelsState.channel, hm]

/-- Channel and state used for the C7 and C8 witnesses. -/
def witnessChannel : Channel :=
  { we_closed := false, peer_channel := 4, peer_window_size := 100,
    peer_max_packet_size := 50, our_window_size := 2048,
    our_max_packet_size := 50, our_window_size_increase_step := 2048,
    queued_data_default := [], queued_data_extended := [] }

def witnessState : ChannelsState :=
  { packets_to_send := [], channel_updates := [],
    channels := [(0, .opened witnessChannel)],
    next_channel_id := 1, is_server := true }

/-- C7 witness: the theorem applied at a concrete open channel and a
two-byte `CHANNEL_DATA` payload. -/
theorem recv_channel_data_checks_witness :
    alookup witnessState.channels 0 = some (.opened witnessChannel)
    ∧ ([7, 8] : List Nat).length < 2 ^ 32
    ∧ ∃ s', ChannelsState.recvChannelData witnessState 0 [7, 8] = .ok s'
      ∧ s'.channel_updates
          = witnessState.channel_updates ++ [(0, .data [7, 8])]
      ∧ ∃ c', alookup s'.channels 0 = some (.opened c')
          ∧ c'.our_window_size =
              (if witnessChannel.our_window_size - ([7, 8] : List Nat).length < 1000 then
                (witnessChannel.our_window_size - ([7, 8] : List Nat).length
                  + witnessChannel.our_window_size_increase_step) % 2 ^ 32
              else witnessChannel.our_window_size - ([7, 8] : List Nat).length) :=
  ⟨by decide, by decide,
    (recv_channel_data_checks witnessState 0 [7, 8] witnessChannel (by decide)
      (by decide)).2.2.1 (by decide) (by decide)⟩

/-- C8 (amended): in the current multiplexer (`cluelessh-connection`), a
host `Close` on an open, not-yet-closed channel emits exactly one
`CHANNEL_CLOSE` and marks `we_closed`; afterwards every host operation on
that channel (including a second `Close`) is dropped without any outbound
packet; likewise every host operation on a channel that is gone (as after a
received peer `CHANNEL_CLOSE`, which removes it) is dropped. -/
theorem close_idempotent_and_silent (s : ChannelsState) (n : Nat) (c : Channel)
    (h : alookup s.channels n = some (.opened c)) (hc : c.we_closed = false) :
    ∃ s', s.do_operation n .close = .ok s'
      ∧ s'.packets_to_send = s.packets_to_send ++ [.channelClose c.peer_channel]
      ∧ alookup s'.channels n = some (.opened { c with we_closed := true })
      ∧ (∀ kind, s'.do_operation n kind = .ok s')
      ∧ (∀ s₂ : ChannelsState, ∀ m c₂,
          alookup s₂.channels m = some (.opened c₂) →
          ∃ s₃, s₂.recvChannelClose m = .ok s₃
            ∧ ∀ kind, s₃.do_operation m kind = .ok s₃) := by
  simp only [ChannelsState.do_operation, ChannelsState.channel, h, hc,
    Bool.false_eq_true, if_false]
  have hset : alookup (ChannelsState.setChannel
        (s.pushPacket (.channelClose c.peer_channel)) n
        { c with we_closed := true }).channels n
      = some (.opened { c with we_closed := true }) := by
    simp only [ChannelsState.setChannel, ChannelsState.pushPacket]
    exact alookup_aset_self _ _ _ (by simp [h])
  refine ⟨_, rfl, ?_, hset, ?_, ?_⟩
  · simp [ChannelsState.setChannel, ChannelsState.pushPacket]
  · intro kind
    simp [ChannelsState.do_operation, ChannelsState.channel, hset]
  · intro s₂ m c₂ h₂
    simp only [ChannelsState.recvChannelClose, ChannelsState.channel, h₂,
      Option.isNone_some, Bool.false_eq_true, if_false]
    refine ⟨_, rfl, ?_⟩
    intro kind
    have hgone : alookup (aremove (if c₂.we_closed then s₂
          else s₂.pushPacket (.channelClose c₂.peer_channel)).channels m) m
        = none := alookup_aremove_self _ _
    simp [ChannelsState.do_operation, ChannelsState.channel,
      ChannelsState.pushUpdate, hgone]

/-- C8 witness: the theorem applied at a concrete open channel. -/
theorem close_idempotent_and_silent_witness :
    alookup witnessState.channels 0 = some (.opened witnessChannel)
    ∧ witnessChannel.we_closed = false
    ∧ ∃ s', ChannelsState.do_operation witnessState 0 .close = .ok s'
      ∧ s'.packets_to_send
          = witnessState.packets_to_send ++ [.channelClose witnessChannel.peer_channel]
      ∧ alookup s'.channels 0 = some (.opened { witnessChannel with we_closed := true })
      ∧ (∀ kind, s'.do_operation 0 kind = .ok s')
      ∧ (∀ s₂ : ChannelsState, ∀ m c₂,
          alookup s₂.channels m = some (.opened c₂) →
          ∃ s₃, s₂.recvChannelClose m = .ok s₃
            ∧ ∀ kind, s₃.do_operation m kind = .ok s₃) :=
  ⟨by decide, by decide,
    close_idempotent_and_silent witnessState 0 witnessChannel (by decide)
      (by decide)⟩

def legacyState : ServerChannelsState :=
  { packets_to_send := [],
    channels := [(0, { we_closed := false, peer_channel := 0 })] }

def legacyStateAfterOneClose : ServerChannelsState :=
  { packets_to_send := [.channelClose 0],
    channels := [(0, { we_closed := true, peer_channel := 0 })] }

def legacyStateAfterTwoCloses : ServerChannelsState :=
  { packets_to_send := [.channelClose 0, .channelClose 0],
    channels := [(0, { we_closed := true, peer_channel := 0 })] }

/-- C8 counterexample: in the legacy `ssh-connection` crate (also cited by
the claim), `ServerChannelsState::do_operation` never consults `we_closed`,
so two consecutive host `Close` operations on one open channel emit two
outbound `CHANNEL_CLOSE` packets, not one. -/
theorem legacy_double_close_emits_two_closes :
    ServerChannelsState.do_operation legacyState 0 .close
        = .ok legacyStateAfterOneClose
      ∧ ServerChannelsState.do_operation legacyStateAfterOneClose 0 .close
        = .ok legacyStateAfterTwoCloses
      ∧ legacyStateAfterTwoCloses.packets_to_send.count (.channelClose 0) = 2 :=
  ⟨rfl, rfl, rfl⟩

/-! ## Byte-stream packet parser (`ssh-transport/src/packet.rs`,
`PacketParser::recv_bytes_inner`)

The parser accumulates four length bytes, decrypts them in place
(`decryptLen`; the `Plaintext` decryptor is the identity), reads the length
word, and then accumulates that many body bytes.  Its return value pairs
the post-call parser state with `some (consumed, raw_packet)` once a whole
packet is gathered (`raw_packet` includes the four length bytes, like
`RawPacket::raw`); the function itself has no failure path. -/

structure PacketParser where
  packet_length : Option Nat
  raw_data : List Nat
deriving DecidableEq

def PacketParser.new : PacketParser :=
  { packet_length := none, raw_data := [] }

/-- The second half of `recv_bytes_inner`: accumulate body bytes until
`raw_data` holds `packet_length + 4` bytes. -/
def PacketParser.bodyStep (raw : List Nat) (packet_length : Nat)
    (bytes : List Nat) (consumed : Nat) : PacketParser × Option (Nat × List Nat) :=
  let remaining_len := min bytes.length (packet_length - (raw.length - 4))
  let raw2 := raw ++ bytes.take remaining_len
  let consumed2 := consumed + remaining_len
  if raw2.length - 4 = packet_length then
    -- `std::mem::take(&mut self.raw_data)`
    ({ packet_length := some packet_length, raw_data := [] },
      some (consumed2, raw2))
  else
    ({ packet_length := some packet_length, raw_data := raw2 }, none)

/-- Embedding of `PacketParser::recv_bytes_inner`. -/
def PacketParser.recv_bytes_inner (decryptLen : List Nat → List Nat)
    (p : PacketParser) (bytes : List Nat) :
    PacketParser × Option (Nat × List Nat) :=
  match p.packet_length with
  | some packet_length => PacketParser.bodyStep p.raw_data packet_length bytes 0
  | none =>
    let remaining_len := min bytes.length (4 - p.raw_data.length)
    let raw := p.raw_data ++ bytes.take remaining_len
    if raw.length < 4 then
      ({ packet_length := none, raw_data := raw }, none)
    else
      let packet_length := u32beVal (decryptLen raw)
      PacketParser.bodyStep raw packet_length (bytes.drop remaining_len)
        remaining_len

theorem u32beVal_u32be (n : Nat) (hn : n < 2 ^ 32) : u32beVal (u32be n) = n := by
  simp only [u32beVal, u32be]
  omega

/-- C9 counterexample: the parser performs no validation of the decrypted
length word.  A zero length is accepted on the spot as a complete
(zero-byte) raw packet, and a length of 36000 (> 35000) is stored and
buffered; neither case produces a `Truncated` failure (the function has no
failure path at all). -/
theorem parser_accepts_zero_and_oversized_lengths :
    PacketParser.recv_bytes_inner (fun b => b) PacketParser.new [0, 0, 0, 0]
        = ({ packet_length := some 0, raw_data := [] }, some (4, [0, 0, 0, 0]))
      ∧ PacketParser.recv_bytes_inner (fun b => b) PacketParser.new
          [0, 0, 140, 160]
        = ({ packet_length := some 36000, raw_data := [0, 0, 140, 160] },
            none) :=
  ⟨rfl, rfl⟩

/-- C9 (amended): feeding a fresh parser the four (plaintext) bytes of any
length word `L < 2^32`, the parser never fails: `L = 0` yields an
immediately complete empty raw packet, and any other `L` — with no bound at
0 or 35000 — is stored as the expected length and the parser waits for
body bytes. -/
theorem parser_no_length_validation (L : Nat) (hL : L < 2 ^ 32) :
    PacketParser.recv_bytes_inner (fun b => b) PacketParser.new (u32be L)
      = if L = 0 then
          ({ packet_length := some 0, raw_data := [] }, some (4, u32be 0))
        else
          ({ packet_length := some L, raw_data := u32be L }, none) := by
  have hlen : (u32be L).length = 4 := by simp [u32be]
  have hval := u32beVal_u32be L hL
  have htake : (u32be L).take 4 = u32be L :=
    List.take_of_length_le (le_of_eq hlen)
  have hdrop : (u32be L).drop 4 = [] := by
    rw [← hlen, List.drop_length]
  simp only [PacketParser.recv_bytes_inner, PacketParser.new, List.length_nil,
    Nat.sub_zero, hlen, Nat.min_self, List.nil_append, htake, hdrop, hval,
    PacketParser.bodyStep, List.take_nil, List.append_nil, Nat.zero_min,
    Nat.add_zero, Nat.sub_self, lt_irrefl, if_false]
  by_cases h0 : L = 0
  · subst h0
    simp
  · rw [if_neg fun hz => h0 hz.symm, if_neg h0]

/-- C9 witness for the amended statement: the theorem applied at the
oversized length 36000. -/
theorem parser_no_length_validation_witness :
    (36000 : Nat) < 2 ^ 32
      ∧ PacketParser.recv_bytes_inner (fun b => b) PacketParser.new (u32be 36000)
        = if (36000 : Nat) = 0 then
            ({ packet_length := some 0, raw_data := [] }, some (4, u32be 0))
          else
            ({ packet_length := some 36000, raw_data := u32be 36000 }, none) :=
  ⟨by decide, parser_no_length_validation 36000 (by decide)⟩

/-! ## KEXINIT handling (`cluelessh-transport/src/server.rs`,
`ServerConnection::recv_bytes_inner`, `KeyExchangeInit` arm)

The arm negotiates every algorithm class against
`SupportedAlgorithms::secure` (using `AlgorithmNegotiation::find` with
`this_is_client = false`) and then rejects any KEXINIT whose
`first_kex_packet_follows` flag is set, before any state is changed or any
reply is queued.  Name lists are modelled as `List String`; the host-key
list depends on the configured host keys and stays a parameter. -/

structure KexInitMsg where
  kex_algorithms : List String
  server_host_key_algorithms : List String
  encryption_algorithms_client_to_server : List String
  encryption_algorithms_server_to_client : List String
  mac_algorithms_client_to_server : List String
  mac_algorithms_server_to_client : List String
  compression_algorithms_client_to_server : List String
  compression_algorithms_server_to_client : List String
  first_kex_packet_follows : Bool

structure NegotiatedAlgs where
  kex : String
  host_key : String
  enc_c2s : String
  enc_s2c : String
  mac_c2s : String
  mac_s2c : String
  comp_c2s : String
  comp_s2c : String

inductive KexError
  | noCommonAlgorithm
  | guessedPacketFollows
deriving DecidableEq

/-- `AlgorithmNegotiation::find`'s error, as the `?` operator sees it. -/
def ofFind (o : Option String) : Except KexError String :=
  match o with
  | none => .error .noCommonAlgorithm
  | some a => .ok a

/-- Embedding of the `ServerState::KeyExchangeInit` arm up to the state
transition: all eight negotiation `find` calls, then the
`first_kex_packet_follows` rejection. -/
def handleKexInit (hostKeyAlgs : List String) (kex : KexInitMsg) :
    Except KexError NegotiatedAlgs := do
  let kexAlg ← ofFind (findAlg false ["curve25519-sha256", "ecdh-sha2-nistp256"]
    kex.kex_algorithms)
  let hostKey ← ofFind (findAlg false hostKeyAlgs kex.server_host_key_algorithms)
  let encC2s ← ofFind (findAlg false
    ["chacha20-poly1305@openssh.com", "aes256-gcm@openssh.com"]
    kex.encryption_algorithms_client_to_server)
  let encS2c ← ofFind (findAlg false
    ["chacha20-poly1305@openssh.com", "aes256-gcm@openssh.com"]
    kex.encryption_algorithms_server_to_client)
  let macC2s ← ofFind (findAlg false
    ["hmac-sha2-256", "hmac-sha2-256-etm@openssh.com"]
    kex.mac_algorithms_client_to_server)
  let macS2c ← ofFind (findAlg false
    ["hmac-sha2-256", "hmac-sha2-256-etm@openssh.com"]
    kex.mac_algorithms_server_to_client)
  let compC2s ← ofFind (findAlg false ["none"]
    kex.compression_algorithms_client_to_server)
  let compS2c ← ofFind (findAlg false ["none"]
    kex.compression_algorithms_server_to_client)
  if kex.first_kex_packet_follows then
    throw .guessedPacketFollows
  else
    pure { kex := kexAlg, host_key := hostKey, enc_c2s := encC2s,
           enc_s2c := encS2c, mac_c2s := macC2s, mac_s2c := macS2c,
           comp_c2s := compC2s, comp_s2c := compS2c }

theorem except_bind_error {α β : Type} (x : Except KexError α)
    (f : α → Except KexError β) (hf : ∀ a, ∃ e, f a = .error e) :
    ∃ e, (x >>= f) = .error e := by
  cases x with
  | error e => exact ⟨e, rfl⟩
  | ok a => exact hf a

/-- C10: a client KEXINIT with `first_kex_packet_follows` set never gets
past the server's KEXINIT handling: the result is always a connection-fatal
peer error (a negotiation failure, or the guessed-packet rejection), never
a successful negotiation. -/
theorem kexinit_guess_rejected (hostKeyAlgs : List String) (kex : KexInitMsg)
    (hf : kex.first_kex_packet_follows = true) :
    ∃ e, handleKexInit hostKeyAlgs kex = .error e := by
  unfold handleKexInit
  refine except_bind_error _ _ fun kexAlg => ?_
  refine except_bind_error _ _ fun hostKey => ?_
  refine except_bind_error _ _ fun encC2s => ?_
  refine except_bind_error _ _ fun encS2c => ?_
  refine except_bind_error _ _ fun macC2s => ?_
  refine except_bind_error _ _ fun macS2c => ?_
  refine except_bind_error _ _ fun compC2s => ?_
  refine except_bind_error _ _ fun compS2c => ?_
  rw [hf]
  exact ⟨.guessedPacketFollows, rfl⟩

/-- C10 witness: the theorem applied at a concrete KEXINIT whose algorithm
lists would all negotiate successfully but whose guess flag is set. -/
theorem kexinit_guess_rejected_witness :
    ({ kex_algorithms := ["curve25519-sha256"]
       server_host_key_algorithms := ["ssh-ed25519"]
       encryption_algorithms_client_to_server := ["chacha20-poly1305@openssh.com"]
       encryption_algorithms_server_to_client := ["chacha20-poly1305@openssh.com"]
       mac_algorithms_client_to_server := ["hmac-sha2-256"]
       mac_algorithms_server_to_client := ["hmac-sha2-256"]
       compression_algorithms_client_to_server := ["none"]
       compression_algorithms_server_to_client := ["none"]
       first_kex_packet_follows := true } : KexInitMsg).first_kex_packet_follows
        = true
      ∧ ∃ e, handleKexInit ["ssh-ed25519"]
          { kex_algorithms := ["curve25519-sha256"]
            server_host_key_algorithms := ["ssh-ed25519"]
            encryption_algorithms_client_to_server := ["chacha20-poly1305@openssh.com"]
            encryption_algorithms_server_to_client := ["chacha20-poly1305@openssh.com"]
            mac_algorithms_client_to_server := ["hmac-sha2-256"]
            mac_algorithms_server_to_client := ["hmac-sha2-256"]
            compression_algorithms_client_to_server := ["none"]
            compression_algorithms_server_to_client := ["none"]
            first_kex_packet_follows := true } = .error e :=
  ⟨rfl, kexinit_guess_rejected ["ssh-ed25519"] _ rfl⟩

end Fakessh
